import Mathlib

/-!
# Verification of the oomph-lib tree / quadtree refinement core

Shallow embedding of the recursive-tree machinery of oomph-lib:
`src/generic/tree.cc` (Tree constructors, destructor, traversals,
`merge_sons_if_required`), `src/generic/quadtree.h` (QuadTree /
QuadTreeRoot / QuadTreeForest, direction tables and error checks) and
`src/polar_navier_stokes/refineable_polar_navier_stokes_elements.h`
(`rebuild_from_sons` for the Crouzeix-Raviart internal pressure data).

Pointers are modelled by natural-number identities (`nodeId` for tree
nodes, `object` for the associated `RefineableElement`); side effects
(calls into elements, `delete`s) are modelled as explicit event traces
in the order the C++ code performs them.  Error-checking code that the
C++ source guards with `#ifdef PARANOID` is embedded as present, i.e.
the embedding is of the PARANOID (checked) build of the library.
-/

namespace Oomph

/-- Events emitted by the tree operations, in the order the C++ code
performs the corresponding side effects.  `rebuildFromSons e`,
`unbuild e`, `deselectSons e` are virtual calls on the element with
identity `e`; `deleteElement e` is `delete` of that element;
`freeNode n` is the completion of `delete` on the tree node with
identity `n` (its destructor's own events precede it). -/
inductive Event where
  | rebuildFromSons (elem : Nat)
  | unbuild (elem : Nat)
  | deleteElement (elem : Nat)
  | freeNode (node : Nat)
  | deselectSons (elem : Nat)
  deriving DecidableEq, Repr

/-- A tree node as in `Tree` of `src/generic/tree.h`/`tree.cc`:
`nodeId` is the node's own identity (the C++ `this` pointer),
`object` the identity of the associated `RefineableElement`
(`Object_pt`), `level` the depth (`Level`), `flag` the value the
associated element's `sons_to_be_unrefined()` currently returns, and
`sons` the ordered list of son subtrees (`Son_pt`). -/
inductive TreeT where
  | mk (nodeId object level : Nat) (flag : Bool) (sons : List TreeT)

namespace TreeT

def nodeId : TreeT → Nat
  | mk i _ _ _ _ => i

def object : TreeT → Nat
  | mk _ o _ _ _ => o

def level : TreeT → Nat
  | mk _ _ l _ _ => l

def flag : TreeT → Bool
  | mk _ _ _ f _ => f

def sons : TreeT → List TreeT
  | mk _ _ _ _ s => s

@[simp] theorem nodeId_mk (i o l : Nat) (f : Bool) (s : List TreeT) :
    (mk i o l f s).nodeId = i := rfl

@[simp] theorem object_mk (i o l : Nat) (f : Bool) (s : List TreeT) :
    (mk i o l f s).object = o := rfl

@[simp] theorem level_mk (i o l : Nat) (f : Bool) (s : List TreeT) :
    (mk i o l f s).level = l := rfl

@[simp] theorem flag_mk (i o l : Nat) (f : Bool) (s : List TreeT) :
    (mk i o l f s).flag = f := rfl

@[simp] theorem sons_mk (i o l : Nat) (f : Bool) (s : List TreeT) :
    (mk i o l f s).sons = s := rfl

theorem sizeOf_lt_of_mem_sons {s : TreeT} {i o l : Nat} {f : Bool}
    {sons : List TreeT} (h : s ∈ sons) :
    sizeOf s < sizeOf (mk i o l f sons) := by
  have h1 : sizeOf s < sizeOf sons := List.sizeOf_lt_of_mem h
  simp only [mk.sizeOf_spec]
  omega

/-- Structural induction for `TreeT` treating the whole list of sons
at once: to prove `P t` for every tree it suffices to prove it for a
node assuming it for each son. -/
def inductionOn {P : TreeT → Prop}
    (step : ∀ (i o l : Nat) (f : Bool) (sons : List TreeT),
      (∀ s ∈ sons, P s) → P (mk i o l f sons)) :
    ∀ t, P t
  | mk i o l f sons =>
    step i o l f sons (fun s hs =>
      have : sizeOf s < sizeOf (mk i o l f sons) := sizeOf_lt_of_mem_sons hs
      inductionOn step s)
  termination_by t => sizeOf t

end TreeT

mutual

/-- Embedding of `Tree::~Tree()` (tree.cc): the event trace of the
destructor body run on this node.  It loops over `Son_pt`, `delete`s
each son in order (the son's destructor trace followed by the release
of the son node itself), and afterwards `delete`s `Object_pt` if and
only if the number of sons was positive.  The release of the node
itself is performed by whoever called `delete` on it, so it is not
part of this trace. -/
def TreeT.destruct : TreeT → List Event
  | .mk _ o _ _ sons =>
    TreeT.destructSons sons ++
      (if sons.length > 0 then [Event.deleteElement o] else [])

/-- The trace of the destructor's loop over the sons: for each son in
order, `delete Son_pt[i]` runs the son's destructor and then frees the
son node. -/
def TreeT.destructSons : List TreeT → List Event
  | [] => []
  | s :: rest =>
    s.destruct ++ [Event.freeNode s.nodeId] ++ TreeT.destructSons rest

end

mutual

/-- Embedding of `Tree::traverse_leaves(member_function)` (tree.cc):
the ordered list of nodes at which the member function is invoked.
If the node has sons the call recurses into the sons in order without
invoking the function; otherwise it invokes the function at this
node. -/
def TreeT.traverse_leaves : TreeT → List TreeT
  | .mk i o l f sons =>
    if sons.length > 0 then TreeT.traverseLeavesSons sons
    else [.mk i o l f sons]

def TreeT.traverseLeavesSons : List TreeT → List TreeT
  | [] => []
  | s :: rest => s.traverse_leaves ++ TreeT.traverseLeavesSons rest

end

mutual

/-- Embedding of `Tree::stick_leaves_into_vector(tree_nodes)`
(tree.cc): the vector passed by reference, after the call.  If the
node has sons it recurses into them in order; otherwise it pushes
`this` onto the vector. -/
def TreeT.stick_leaves_into_vector : TreeT → List TreeT → List TreeT
  | .mk i o l f sons, acc =>
    if sons.length > 0 then TreeT.stickLeavesSons sons acc
    else acc ++ [.mk i o l f sons]

def TreeT.stickLeavesSons : List TreeT → List TreeT → List TreeT
  | [], acc => acc
  | s :: rest, acc =>
    TreeT.stickLeavesSons rest (s.stick_leaves_into_vector acc)

end

mutual

/-- Embedding of `Tree::stick_all_tree_nodes_into_vector(all_tree_nodes)`
(tree.cc): pushes `this` onto the vector, then recurses into the sons
(if any) in order. -/
def TreeT.stick_all_tree_nodes_into_vector : TreeT → List TreeT → List TreeT
  | .mk i o l f sons, acc =>
    TreeT.stickAllSons sons (acc ++ [.mk i o l f sons])

def TreeT.stickAllSons : List TreeT → List TreeT → List TreeT
  | [], acc => acc
  | s :: rest, acc =>
    TreeT.stickAllSons rest (s.stick_all_tree_nodes_into_vector acc)

end

/-- Embedding of `Tree::merge_sons_if_required(mesh_pt)` (tree.cc).
Returns the node after the call together with the event trace.  If the
element's `sons_to_be_unrefined()` is false nothing happens.  If it is
true the code calls `rebuild_from_sons` on this node's element, then
for each son in order calls `unbuild()` on the son's element, `delete`s
the son's element, and `delete`s the son tree node (running its
destructor, then freeing it); then it resizes `Son_pt` to zero and
finally calls `deselect_sons_for_unrefinement()` on this node's
element (which makes its `sons_to_be_unrefined()` return false). -/
def TreeT.merge_sons_if_required : TreeT → TreeT × List Event
  | .mk i o l f sons =>
    if f then
      (.mk i o l false [],
        [Event.rebuildFromSons o] ++
          sons.flatMap (fun s =>
            [Event.unbuild s.object, Event.deleteElement s.object] ++
              s.destruct ++ [Event.freeNode s.nodeId]) ++
          [Event.deselectSons o])
    else (.mk i o l f sons, [])

/-! ## The two `Tree` constructors (tree.cc)

The constructors are modelled as pure functions producing the field
record of the freshly constructed node together with the update they
perform on the associated element (`object_pt->set_tree_pt(this)`).
Pointer values are `Option Nat` (`none` is the C++ null pointer);
`newId` is the identity of the node being constructed (`this`). -/

/-- `Tree::OMEGA` (tree.cc line 52): static value for unassigned
quantities, consistent with the Quadtree/Octree direction enums. -/
def Tree.OMEGA : Nat := 26

/-- The data members of a `Tree` as set by the constructors:
`Father_pt`, `Son_type`, `Level`, `Root_pt`, `Son_pt` (list of node
identities) and `Object_pt`. -/
structure TreeFields where
  Father_pt : Option Nat
  Son_type : Nat
  Level : Nat
  Root_pt : Option Nat
  Son_pt : List Nat
  Object_pt : Nat
  deriving DecidableEq, Repr

/-- State of a `RefineableElement` relevant here: its tree
back-pointer (`Tree_pt`, set through `set_tree_pt`). -/
structure ElementState where
  tree_pt : Option Nat
  deriving DecidableEq, Repr

/-- `object_pt->set_tree_pt(this)`: update of the element map at the
element being pointed at. -/
def set_tree_pt (elems : Nat → ElementState) (objectId newId : Nat) :
    Nat → ElementState :=
  fun e => if e = objectId then { tree_pt := some newId } else elems e

/-- Embedding of the root constructor
`Tree::Tree(RefineableElement* const& object_pt)` (tree.cc lines
66-85): no father, son type `OMEGA`, level 0, null root pointer (set
later by the TreeRoot constructor), no sons, and it tells the object
which tree represents it. -/
def Tree.ctor_root (objectId newId : Nat) (elems : Nat → ElementState) :
    TreeFields × (Nat → ElementState) :=
  (⟨none, Tree.OMEGA, 0, none, [], objectId⟩,
    set_tree_pt elems objectId newId)

/-- Embedding of the son constructor
`Tree::Tree(RefineableElement* const& object_pt, Tree* const&
father_pt, const int& son_type)` (tree.cc lines 94-116): father set,
son type set, level one deeper than the father's, no sons, root
pointer inherited from the father, and it tells the object which tree
represents it. -/
def Tree.ctor_son (objectId newId : Nat) (father : TreeFields)
    (fatherId : Nat) (son_type : Nat) (elems : Nat → ElementState) :
    TreeFields × (Nat → ElementState) :=
  (⟨some fatherId, son_type, father.Level + 1, father.Root_pt, [], objectId⟩,
    set_tree_pt elems objectId newId)

/-! ## QuadTree directions, error objects and QuadTreeRoot
(quadtree.h) -/

namespace QuadTreeNames

/-- The `QuadTreeNames` direction enum (quadtree.h): `SW, SE, NW, NE,
N, E, S, W` in declaration order, and `OMEGA = 26` for "undefined". -/
def SW : Nat := 0

def SE : Nat := 1

def NW : Nat := 2

def NE : Nat := 3

def N : Nat := 4

def E : Nat := 5

def S : Nat := 6

def W : Nat := 7

def OMEGA : Nat := 26

end QuadTreeNames

/-- An `OomphLibError` as thrown by the checked code paths: carries
the error message, the current function (`OOMPH_CURRENT_FUNCTION`) and
the exception location (`OOMPH_EXCEPTION_LOCATION`). -/
structure OomphLibError where
  message : String
  currentFunction : String
  location : String
  deriving DecidableEq, Repr

/-- The state of a `QuadTreeRoot` object: the `North_equivalent`
vector (resized to 27 entries; modelled as a total function on
indices) and the `Neighbour_pt` map inherited from `TreeRoot`
(direction → pointer to neighbouring root, `none` for null). -/
structure QuadTreeRootState where
  North_equivalent : Nat → Nat
  Neighbour_pt : Nat → Option Nat

/-- Embedding of the `QuadTreeRoot(RefineableElement* const&)`
constructor (quadtree.h lines 309-335), PARANOID build: if
`QuadTree::Static_data_has_been_setup` is false it throws an
`OomphLibError`; otherwise it initialises the north equivalents of the
N/E/W/S neighbours to `N`.  `neighbour_pt` is the `Neighbour_pt` map
supplied to the `TreeRoot` part. -/
def QuadTreeRoot.ctor (static_data_has_been_setup : Bool)
    (neighbour_pt : Nat → Option Nat) :
    Except OomphLibError QuadTreeRootState :=
  if !static_data_has_been_setup then
    .error
      { message := "Static member data hasn't been setup yet.\n" ++
          "Call QuadTree::setup_static_data() before creating\n" ++
          "any QuadTreeRoots\n"
        currentFunction := "QuadTreeRoot::QuadTreeRoot(RefineableElement* const&)"
        location := "quadtree.h" }
  else
    .ok
      { North_equivalent := fun d =>
          if d = QuadTreeNames.N then QuadTreeNames.N
          else if d = QuadTreeNames.E then QuadTreeNames.N
          else if d = QuadTreeNames.W then QuadTreeNames.N
          else if d = QuadTreeNames.S then QuadTreeNames.N
          else 0
        Neighbour_pt := neighbour_pt }

/-- Embedding of `QuadTreeRoot::north_equivalent(neighbour)`
(quadtree.h lines 354-372), PARANOID build: if the argument is not one
of S/N/W/E it throws an `OomphLibError`; otherwise it returns the
stored `North_equivalent[neighbour]` entry. -/
def QuadTreeRoot.north_equivalent (root : QuadTreeRootState)
    (neighbour : Nat) : Except OomphLibError Nat :=
  if neighbour ≠ QuadTreeNames.S ∧ neighbour ≠ QuadTreeNames.N ∧
      neighbour ≠ QuadTreeNames.W ∧ neighbour ≠ QuadTreeNames.E then
    .error
      { message := "The neighbour can only be N,S,E,W, not" ++
          toString neighbour
        currentFunction := "int& QuadTreeRoot::north_equivalent(const int&)"
        location := "quadtree.h" }
  else
    .ok (root.North_equivalent neighbour)

/-- Embedding of `QuadTreeRoot::direction_of_neighbour(quadtree_root_pt)`
(quadtree.h lines 375-398): tests `Neighbour_pt[N]`, `[E]`, `[S]`,
`[W]` against the argument in that order and returns the first matching
direction, or `OMEGA` if none matches. -/
def QuadTreeRoot.direction_of_neighbour (root : QuadTreeRootState)
    (quadtree_root_pt : Option Nat) : Nat :=
  if root.Neighbour_pt QuadTreeNames.N = quadtree_root_pt then QuadTreeNames.N
  else if root.Neighbour_pt QuadTreeNames.E = quadtree_root_pt then
    QuadTreeNames.E
  else if root.Neighbour_pt QuadTreeNames.S = quadtree_root_pt then
    QuadTreeNames.S
  else if root.Neighbour_pt QuadTreeNames.W = quadtree_root_pt then
    QuadTreeNames.W
  else QuadTreeNames.OMEGA

/-- Embedding of the broken default constructor `QuadTree::QuadTree()`
(quadtree.h lines 202-209): unconditionally throws an
`OomphLibError`. -/
def QuadTree.empty_ctor : Except OomphLibError Unit :=
  .error
    { message := "Don't call an empty constructor for a QuadTree object"
      currentFunction := "QuadTree::QuadTree()"
      location := "quadtree.h" }

/-- Embedding of the broken default constructor
`QuadTreeForest::QuadTreeForest()` (quadtree.h lines 411-419):
unconditionally throws an `OomphLibError`. -/
def QuadTreeForest.empty_ctor : Except OomphLibError Unit :=
  .error
    { message := "Don't call an empty constructor for a QuadTreeForest object"
      currentFunction := "QuadTreeForest::QuadTreeForest()"
      location := "quadtree.h" }

/-! ## `RefineablePolarCrouzeixRaviartElement::rebuild_from_sons`
(refineable_polar_navier_stokes_elements.h lines 898-996)

The element's internal pressure data (at `P_pnst_internal_index`)
holds three values: value 0 is the central pressure, values 1 and 2
the slopes in the `s_0` and `s_1` directions.  Real arithmetic is
modelled exactly over `ℚ`. -/

/-- The three entries of the internal pressure data of a
`PolarCrouzeixRaviartElement` at `P_pnst_internal_index`. -/
structure PnstInternalData where
  value0 : ℚ
  value1 : ℚ
  value2 : ℚ
  deriving DecidableEq, Repr

/-- Embedding of
`RefineablePolarCrouzeixRaviartElement::rebuild_from_sons(mesh_pt)`:
`son_p ison` is `son_pt(ison)->object_pt()->internal_data_pt(
P_pnst_internal_index)->value(0)`, the central pressure of son `ison`
(sons are stored at the indices of the `QuadTreeNames` enum, SW=0,
SE=1, NW=2, NE=3).  The father's central value is set to 0.25 times
the sum over the loop `ison = 0..3`; each slope is set to the average
of two finite differences of the sons' central values. -/
def RefineablePolarCrouzeixRaviartElement.rebuild_from_sons
    (son_p : Nat → ℚ) : PnstInternalData :=
  let av_press : ℚ := (List.range 4).foldl (fun acc ison => acc + son_p ison) 0
  let slope1 : ℚ := son_p QuadTreeNames.SE - son_p QuadTreeNames.SW
  let slope2 : ℚ := son_p QuadTreeNames.NE - son_p QuadTreeNames.NW
  let slope1' : ℚ := son_p QuadTreeNames.NE - son_p QuadTreeNames.SE
  let slope2' : ℚ := son_p QuadTreeNames.NW - son_p QuadTreeNames.SW
  { value0 := 0.25 * av_press
    value1 := 0.5 * (slope1 + slope2)
    value2 := 0.5 * (slope1' + slope2') }

/-! ## Helper lemmas about the traversal and destructor functions -/

namespace TreeT

theorem flatMap_congr' {α β : Type} {f g : α → List β} :
    ∀ (ss : List α), (∀ s ∈ ss, f s = g s) → ss.flatMap f = ss.flatMap g := by
  intro ss h
  induction ss with
  | nil => rfl
  | cons s rest ih =>
    simp only [List.flatMap_cons]
    rw [h s (List.mem_cons_self s rest),
      ih (fun s' h' => h s' (List.mem_cons_of_mem s h'))]

theorem destructSons_eq (ss : List TreeT) :
    destructSons ss =
      ss.flatMap (fun s => s.destruct ++ [Event.freeNode s.nodeId]) := by
  induction ss with
  | nil => rfl
  | cons s rest ih =>
    rw [destructSons, ih]
    simp

theorem traverseLeavesSons_eq (ss : List TreeT) :
    traverseLeavesSons ss = ss.flatMap traverse_leaves := by
  induction ss with
  | nil => rfl
  | cons s rest ih =>
    rw [traverseLeavesSons, ih]
    simp

theorem stickAllSons_acc (ss : List TreeT)
    (h : ∀ s ∈ ss, ∀ a, s.stick_all_tree_nodes_into_vector a =
      a ++ s.stick_all_tree_nodes_into_vector []) :
    ∀ acc, stickAllSons ss acc =
      acc ++ ss.flatMap (fun s => s.stick_all_tree_nodes_into_vector []) := by
  induction ss with
  | nil => intro acc; simp [stickAllSons]
  | cons s rest ih =>
    intro acc
    rw [stickAllSons, h s (List.mem_cons_self s rest),
      ih (fun s' h' => h s' (List.mem_cons_of_mem s h'))]
    simp

theorem stick_all_acc :
    ∀ (t : TreeT) (acc : List TreeT),
      t.stick_all_tree_nodes_into_vector acc =
        acc ++ t.stick_all_tree_nodes_into_vector [] := by
  intro t
  induction t using inductionOn with
  | step i o l f sons ih =>
    intro acc
    rw [stick_all_tree_nodes_into_vector, stick_all_tree_nodes_into_vector,
      stickAllSons_acc sons ih, stickAllSons_acc sons ih]
    simp

/-- Preorder unfolding of `stick_all_tree_nodes_into_vector`: the node
itself followed by the concatenated preorder sequences of the sons. -/
theorem stick_all_eq (i o l : Nat) (f : Bool) (sons : List TreeT) :
    (mk i o l f sons).stick_all_tree_nodes_into_vector [] =
      mk i o l f sons ::
        sons.flatMap (fun s => s.stick_all_tree_nodes_into_vector []) := by
  rw [stick_all_tree_nodes_into_vector,
    stickAllSons_acc sons (fun s _ => stick_all_acc s)]
  simp

theorem stickLeavesSons_acc (ss : List TreeT)
    (h : ∀ s ∈ ss, ∀ a, s.stick_leaves_into_vector a =
      a ++ s.stick_leaves_into_vector []) :
    ∀ acc, stickLeavesSons ss acc =
      acc ++ ss.flatMap (fun s => s.stick_leaves_into_vector []) := by
  induction ss with
  | nil => intro acc; simp [stickLeavesSons]
  | cons s rest ih =>
    intro acc
    rw [stickLeavesSons, h s (List.mem_cons_self s rest),
      ih (fun s' h' => h s' (List.mem_cons_of_mem s h'))]
    simp

theorem stick_leaves_acc :
    ∀ (t : TreeT) (acc : List TreeT),
      t.stick_leaves_into_vector acc =
        acc ++ t.stick_leaves_into_vector [] := by
  intro t
  induction t using inductionOn with
  | step i o l f sons ih =>
    intro acc
    by_cases hs : sons.length > 0
    · rw [stick_leaves_into_vector, stick_leaves_into_vector, if_pos hs,
        if_pos hs, stickLeavesSons_acc sons ih, stickLeavesSons_acc sons ih]
      simp
    · rw [stick_leaves_into_vector, stick_leaves_into_vector, if_neg hs,
        if_neg hs]
      simp

/-- Unfolding of `stick_leaves_into_vector` on the empty vector. -/
theorem stick_leaves_eq (i o l : Nat) (f : Bool) (sons : List TreeT) :
    (mk i o l f sons).stick_leaves_into_vector [] =
      if sons.length > 0 then
        sons.flatMap (fun s => s.stick_leaves_into_vector [])
      else [mk i o l f sons] := by
  rw [stick_leaves_into_vector]
  by_cases hs : sons.length > 0
  · rw [if_pos hs, if_pos hs,
      stickLeavesSons_acc sons (fun s _ => stick_leaves_acc s)]
    simp
  · rw [if_neg hs, if_neg hs]
    simp

/-- Unfolding of `traverse_leaves`. -/
theorem traverse_leaves_eq (i o l : Nat) (f : Bool) (sons : List TreeT) :
    (mk i o l f sons).traverse_leaves =
      if sons.length > 0 then sons.flatMap traverse_leaves
      else [mk i o l f sons] := by
  rw [traverse_leaves, traverseLeavesSons_eq]

/-- The callback-invocation sequence of `traverse_leaves` is exactly
the vector built by `stick_leaves_into_vector`. -/
theorem traverse_leaves_eq_stick_leaves :
    ∀ t : TreeT, t.traverse_leaves = t.stick_leaves_into_vector [] := by
  intro t
  induction t using inductionOn with
  | step i o l f sons ih =>
    rw [traverse_leaves_eq, stick_leaves_eq]
    by_cases hs : sons.length > 0
    · rw [if_pos hs, if_pos hs]
      exact flatMap_congr' sons ih
    · rw [if_neg hs, if_neg hs]

theorem filter_flatMap' {α β : Type} (p : β → Bool) (f : α → List β) :
    ∀ ss : List α, (ss.flatMap f).filter p = ss.flatMap (fun s => (f s).filter p) := by
  intro ss
  induction ss with
  | nil => rfl
  | cons s rest ih => simp [List.filter_append, ih]

/-- The leaf vector is the sonless-node subsequence of the full
preorder vector. -/
theorem stick_leaves_eq_filter :
    ∀ t : TreeT, t.stick_leaves_into_vector [] =
      (t.stick_all_tree_nodes_into_vector []).filter
        (fun u => u.sons.isEmpty) := by
  intro t
  induction t using inductionOn with
  | step i o l f sons ih =>
    rw [stick_leaves_eq, stick_all_eq]
    by_cases hs : sons.length > 0
    · have hne : sons ≠ [] := by
        intro hnil
        rw [hnil] at hs
        simp at hs
      rw [if_pos hs, List.filter_cons]
      have : (mk i o l f sons).sons.isEmpty = false := by
        simp [hne]
      rw [this]
      simp only [Bool.false_eq_true, if_neg (by simp : ¬False)]
      rw [filter_flatMap']
      exact flatMap_congr' sons ih
    · have hnil : sons = [] := by
        cases sons with
        | nil => rfl
        | cons a b => simp at hs
      subst hnil
      simp

/-- The destructor trace contains `deleteElement x` exactly when some
node of the (sub)tree has sons and its associated element is `x`. -/
theorem destruct_mem_iff :
    ∀ (t : TreeT) (x : Nat), Event.deleteElement x ∈ t.destruct ↔
      ∃ u ∈ t.stick_all_tree_nodes_into_vector [],
        u.sons ≠ [] ∧ u.object = x := by
  intro t
  induction t using inductionOn with
  | step i o l f sons ih =>
    intro x
    rw [destruct, destructSons_eq, stick_all_eq]
    by_cases hs : sons.length > 0
    · have hne : sons ≠ [] := by
        intro hnil
        rw [hnil] at hs
        simp at hs
      rw [if_pos hs]
      simp only [List.mem_append, List.mem_flatMap, List.mem_cons,
        List.mem_singleton]
      constructor
      · rintro (⟨s, hsmem, hmem⟩ | heq)
        · rcases hmem with hmem | hmem
          · rcases (ih s hsmem x).mp hmem with ⟨u, humem, hune, huobj⟩
            exact ⟨u, Or.inr ⟨s, hsmem, humem⟩, hune, huobj⟩
          · simp at hmem
        · refine ⟨mk i o l f sons, Or.inl rfl, by simpa using hne, ?_⟩
          have hxo : x = o := by simpa using heq
          simp [hxo]
      · rintro ⟨u, humem | ⟨s, hsmem, humem⟩, hune, huobj⟩
        · subst humem
          right
          simp only [object_mk] at huobj
          simp [huobj]
        · exact Or.inl ⟨s, hsmem, Or.inl ((ih s hsmem x).mpr
            ⟨u, humem, hune, huobj⟩)⟩
    · have hnil : sons = [] := by
        cases sons with
        | nil => rfl
        | cons a b => simp at hs
      subst hnil
      simp

/-- With pointer-distinct node identities, `traverse_leaves` visits
each sonless node exactly once and each node with sons not at all. -/
theorem traverse_leaves_count (t : TreeT)
    (hnd : ((t.stick_all_tree_nodes_into_vector []).map TreeT.nodeId).Nodup)
    (u : TreeT) (hu : u ∈ t.stick_all_tree_nodes_into_vector []) :
    (t.traverse_leaves.map TreeT.nodeId).count u.nodeId =
      if u.sons.isEmpty then 1 else 0 := by
  rw [traverse_leaves_eq_stick_leaves, stick_leaves_eq_filter]
  have hsub :
      (((t.stick_all_tree_nodes_into_vector []).filter
          (fun v => v.sons.isEmpty)).map TreeT.nodeId).Sublist
        ((t.stick_all_tree_nodes_into_vector []).map TreeT.nodeId) :=
    (List.filter_sublist _).map TreeT.nodeId
  have hndf := hnd.sublist hsub
  by_cases hp : u.sons.isEmpty
  · rw [if_pos hp]
    refine List.count_eq_one_of_mem hndf ?_
    exact List.mem_map_of_mem TreeT.nodeId (List.mem_filter.mpr ⟨hu, hp⟩)
  · rw [if_neg hp]
    refine List.count_eq_zero.mpr ?_
    rintro hmem
    rcases List.mem_map.mp hmem with ⟨w, hwmem, hweq⟩
    rcases List.mem_filter.mp hwmem with ⟨hwall, hwleaf⟩
    have := List.inj_on_of_nodup_map hnd hwall hu hweq
    rw [this] at hwleaf
    exact hp hwleaf

end TreeT

/-! ## Theorems for the claims -/

/-- **C2.** Every `Tree` node constructed with a father has level equal
to its father's level plus one; every root node (constructed without a
father) has level 0 and a null father pointer — immediately after every
construction (tree.cc lines 66-85 and 94-116). -/
theorem C2_level_invariant :
    (∀ (objectId newId : Nat) (father : TreeFields) (fatherId son_type : Nat)
        (elems : Nat → ElementState),
      (Tree.ctor_son objectId newId father fatherId son_type elems).1.Level =
        father.Level + 1) ∧
    (∀ (objectId newId : Nat) (elems : Nat → ElementState),
      (Tree.ctor_root objectId newId elems).1.Level = 0 ∧
        (Tree.ctor_root objectId newId elems).1.Father_pt = none) := by
  constructor
  · intro objectId newId father fatherId son_type elems
    rfl
  · intro objectId newId elems
    exact ⟨rfl, rfl⟩

/-- **C9.** Immediately after either `Tree` constructor completes, the
associated element's tree back-pointer has been set to the newly
constructed node via `set_tree_pt(this)` (tree.cc lines 84 and 115). -/
theorem C9_set_tree_pt_on_construction :
    (∀ (objectId newId : Nat) (elems : Nat → ElementState),
      ((Tree.ctor_root objectId newId elems).2 objectId).tree_pt =
        some newId ∧
      (Tree.ctor_root objectId newId elems).1.Object_pt = objectId) ∧
    (∀ (objectId newId : Nat) (father : TreeFields) (fatherId son_type : Nat)
        (elems : Nat → ElementState),
      ((Tree.ctor_son objectId newId father fatherId son_type elems).2
          objectId).tree_pt = some newId ∧
      (Tree.ctor_son objectId newId father fatherId son_type elems).1.Object_pt
        = objectId) := by
  refine ⟨fun objectId newId elems => ⟨?_, rfl⟩,
    fun objectId newId father fatherId son_type elems => ⟨?_, rfl⟩⟩ <;>
    simp [Tree.ctor_root, Tree.ctor_son, set_tree_pt]

/-- **C6.** Constructing a `QuadTreeRoot` while
`QuadTree::Static_data_has_been_setup` is false is a fatal usage
error: the constructor throws an `OomphLibError` carrying function and
location context, and no `QuadTreeRoot` state is produced (quadtree.h
lines 309-335, PARANOID build). -/
theorem C6_quadtreeroot_requires_static_data
    (neighbour_pt : Nat → Option Nat) :
    ∃ e : OomphLibError,
      QuadTreeRoot.ctor false neighbour_pt = .error e ∧
        e.currentFunction ≠ "" ∧ e.location ≠ "" ∧
        (∀ s, QuadTreeRoot.ctor false neighbour_pt ≠ .ok s) := by
  refine ⟨_, rfl, by simp, by simp, fun s hs => ?_⟩
  simp [QuadTreeRoot.ctor] at hs

/-- **C1.** `Tree::merge_sons_if_required` unrefines if and only if the
element's `sons_to_be_unrefined()` is true.  When it is false the node
(sons, level, element association) is untouched and no side effect
happens.  When it is true the call emits, in order:
`rebuild_from_sons` on this node's element; for each son in order
`unbuild()` on the son's element, `delete` of the son's element and
`delete` of the son tree node; and finally
`deselect_sons_for_unrefinement()` on this node's element — and the
node ends up with an empty sons list (a leaf again) and unchanged
element association, node identity and level (tree.cc lines 301-333). -/
theorem C1_merge_sons_if_required (t : TreeT) :
    (t.flag = false → t.merge_sons_if_required = (t, [])) ∧
    (t.flag = true →
      t.merge_sons_if_required.2 =
        [Event.rebuildFromSons t.object] ++
          t.sons.flatMap (fun s =>
            [Event.unbuild s.object, Event.deleteElement s.object] ++
              s.destruct ++ [Event.freeNode s.nodeId]) ++
          [Event.deselectSons t.object] ∧
      t.merge_sons_if_required.1 =
        TreeT.mk t.nodeId t.object t.level false []) := by
  cases t with
  | mk i o l f sons =>
    cases f <;> simp [TreeT.merge_sons_if_required]

/-- Witness for C1: a node whose element requests unrefinement, with
two leaf sons, produces exactly the claimed trace and becomes a leaf;
a node whose element does not request unrefinement is untouched. -/
theorem C1_merge_sons_if_required_witness :
    TreeT.merge_sons_if_required
        (TreeT.mk 0 10 0 true
          [TreeT.mk 1 11 1 false [], TreeT.mk 2 12 1 false []]) =
      (TreeT.mk 0 10 0 false [],
        [Event.rebuildFromSons 10,
         Event.unbuild 11, Event.deleteElement 11, Event.freeNode 1,
         Event.unbuild 12, Event.deleteElement 12, Event.freeNode 2,
         Event.deselectSons 10]) ∧
    TreeT.merge_sons_if_required (TreeT.mk 3 13 2 false []) =
      (TreeT.mk 3 13 2 false [], []) := by
  constructor
  · have h := (C1_merge_sons_if_required
      (TreeT.mk 0 10 0 true
        [TreeT.mk 1 11 1 false [], TreeT.mk 2 12 1 false []])).2 rfl
    calc TreeT.merge_sons_if_required _ =
        ((TreeT.merge_sons_if_required _).1,
          (TreeT.merge_sons_if_required _).2) := rfl
      _ = _ := by rw [h.1, h.2]; rfl
  · exact (C1_merge_sons_if_required (TreeT.mk 3 13 2 false [])).1 rfl

/-- **C3.** The `Tree` destructor recursively destroys all sons first
(the whole trace of the sons' destruction precedes anything else) and
`delete`s the node's own associated element if and only if the node
has at least one son; a leaf node's destructor deletes nothing
(tree.cc lines 124-141).  The if-and-only-if over all nodes of a tree
uses pointer-distinctness of the elements. -/
theorem C3_tree_destructor (t : TreeT) :
    (∀ u : TreeT, u.sons ≠ [] →
      u.destruct =
        TreeT.destructSons u.sons ++ [Event.deleteElement u.object]) ∧
    (∀ u : TreeT, u.sons = [] → u.destruct = []) ∧
    (((t.stick_all_tree_nodes_into_vector []).map TreeT.object).Nodup →
      ∀ u ∈ t.stick_all_tree_nodes_into_vector [],
        (Event.deleteElement u.object ∈ t.destruct ↔ u.sons ≠ [])) := by
  refine ⟨?_, ?_, ?_⟩
  · rintro ⟨i, o, l, f, sons⟩ hne
    rw [TreeT.destruct]
    simp only [TreeT.sons_mk, TreeT.object_mk] at hne ⊢
    rw [if_pos (List.length_pos.mpr hne)]
  · rintro ⟨i, o, l, f, sons⟩ hnil
    simp only [TreeT.sons_mk] at hnil
    subst hnil
    rfl
  · intro hnd u hu
    constructor
    · intro hmem
      rcases (TreeT.destruct_mem_iff t u.object).mp hmem with
        ⟨w, hw, hwne, hwobj⟩
      have hwu := List.inj_on_of_nodup_map hnd hw hu hwobj
      rw [← hwu]
      exact hwne
    · intro hne
      exact (TreeT.destruct_mem_iff t u.object).mpr ⟨u, hu, hne, rfl⟩

/-- Witness for C3 at a two-level tree: the root's element is deleted
after the sons' destruction, the leaf destructor trace is empty, and
element deletion happens exactly at the node with sons. -/
theorem C3_tree_destructor_witness :
    (TreeT.mk 0 10 0 false [TreeT.mk 1 11 1 false []]).destruct =
      TreeT.destructSons [TreeT.mk 1 11 1 false []] ++
        [Event.deleteElement 10] ∧
    (TreeT.mk 1 11 1 false []).destruct = [] ∧
    (Event.deleteElement 10 ∈
        (TreeT.mk 0 10 0 false [TreeT.mk 1 11 1 false []]).destruct ↔
      (TreeT.mk 0 10 0 false [TreeT.mk 1 11 1 false []]).sons ≠ []) := by
  have h := C3_tree_destructor (TreeT.mk 0 10 0 false [TreeT.mk 1 11 1 false []])
  refine ⟨h.1 _ (by simp), h.2.1 _ rfl, ?_⟩
  have hmem : TreeT.mk 0 10 0 false [TreeT.mk 1 11 1 false []] ∈
      (TreeT.mk 0 10 0 false
        [TreeT.mk 1 11 1 false []]).stick_all_tree_nodes_into_vector [] := by
    rw [TreeT.stick_all_eq]
    exact List.mem_cons_self _ _
  exact h.2.2 (by decide) _ hmem

/-- **C5.** `traverse_leaves` invokes the callback exactly once at each
sonless node and never at a node with sons, in exactly the order in
which `stick_leaves_into_vector` appends the leaves; and that leaf
sequence is exactly the sonless-node subsequence of the full preorder
sequence produced by `stick_all_tree_nodes_into_vector` (tree.cc lines
206-290).  "Exactly once" is stated via pointer-distinct node
identities. -/
theorem C5_traverse_leaves_spec (t : TreeT) :
    t.traverse_leaves = t.stick_leaves_into_vector [] ∧
    t.stick_leaves_into_vector [] =
      (t.stick_all_tree_nodes_into_vector []).filter
        (fun u => u.sons.isEmpty) ∧
    (∀ u ∈ t.traverse_leaves, u.sons = []) ∧
    (((t.stick_all_tree_nodes_into_vector []).map TreeT.nodeId).Nodup →
      ∀ u ∈ t.stick_all_tree_nodes_into_vector [],
        (t.traverse_leaves.map TreeT.nodeId).count u.nodeId =
          if u.sons.isEmpty then 1 else 0) := by
  refine ⟨TreeT.traverse_leaves_eq_stick_leaves t,
    TreeT.stick_leaves_eq_filter t, ?_, ?_⟩
  · intro u hu
    rw [TreeT.traverse_leaves_eq_stick_leaves,
      TreeT.stick_leaves_eq_filter] at hu
    have := (List.mem_filter.mp hu).2
    simpa using this
  · intro hnd u hu
    exact TreeT.traverse_leaves_count t hnd u hu

/-- Witness for C5 at a concrete three-level tree: the callback fires
once at each leaf and never at the refined nodes. -/
theorem C5_traverse_leaves_spec_witness :
    (((TreeT.mk 0 10 0 false
        [TreeT.mk 1 11 1 false [],
         TreeT.mk 2 12 1 false
           [TreeT.mk 3 13 2 false []]]).traverse_leaves.map
        TreeT.nodeId).count 1 = 1) ∧
    (((TreeT.mk 0 10 0 false
        [TreeT.mk 1 11 1 false [],
         TreeT.mk 2 12 1 false
           [TreeT.mk 3 13 2 false []]]).traverse_leaves.map
        TreeT.nodeId).count 2 = 0) := by
  have h := (C5_traverse_leaves_spec
    (TreeT.mk 0 10 0 false
      [TreeT.mk 1 11 1 false [],
       TreeT.mk 2 12 1 false [TreeT.mk 3 13 2 false []]])).2.2.2 (by decide)
  have hlist : (TreeT.mk 0 10 0 false
      [TreeT.mk 1 11 1 false [],
       TreeT.mk 2 12 1 false
         [TreeT.mk 3 13 2 false []]]).stick_all_tree_nodes_into_vector [] =
      [TreeT.mk 0 10 0 false
        [TreeT.mk 1 11 1 false [],
         TreeT.mk 2 12 1 false [TreeT.mk 3 13 2 false []]],
       TreeT.mk 1 11 1 false [],
       TreeT.mk 2 12 1 false [TreeT.mk 3 13 2 false []],
       TreeT.mk 3 13 2 false []] := rfl
  constructor
  · exact (h (TreeT.mk 1 11 1 false [])
      (by rw [hlist]; simp)).trans (by rfl)
  · exact (h (TreeT.mk 2 12 1 false [TreeT.mk 3 13 2 false []])
      (by rw [hlist]; simp)).trans (by rfl)

/-- **C7.** `QuadTreeRoot::north_equivalent(d)` with any direction
other than N, S, E, W throws an `OomphLibError` with function and
location context; for N, S, E, W it returns the stored
north-equivalent entry for that direction (quadtree.h lines 354-372,
PARANOID build). -/
theorem C7_north_equivalent_argument_check (root : QuadTreeRootState)
    (d : Nat) :
    ((d ≠ QuadTreeNames.N ∧ d ≠ QuadTreeNames.S ∧ d ≠ QuadTreeNames.E ∧
        d ≠ QuadTreeNames.W) →
      ∃ e : OomphLibError, QuadTreeRoot.north_equivalent root d = .error e ∧
        e.currentFunction ≠ "" ∧ e.location ≠ "") ∧
    ((d = QuadTreeNames.N ∨ d = QuadTreeNames.S ∨ d = QuadTreeNames.E ∨
        d = QuadTreeNames.W) →
      QuadTreeRoot.north_equivalent root d =
        .ok (root.North_equivalent d)) := by
  constructor
  · intro h
    rw [QuadTreeRoot.north_equivalent,
      if_pos ⟨h.2.1, h.1, h.2.2.2, h.2.2.1⟩]
    refine ⟨_, rfl, ?_, ?_⟩
    · show ("int& QuadTreeRoot::north_equivalent(const int&)" : String) ≠ ""
      decide
    · show ("quadtree.h" : String) ≠ ""
      decide
  · rintro (h | h | h | h) <;> subst h <;>
      simp [QuadTreeRoot.north_equivalent, QuadTreeNames.N, QuadTreeNames.S,
        QuadTreeNames.E, QuadTreeNames.W]

/-- Witness for C7: the call with `OMEGA` throws, the call with `N`
returns the stored entry. -/
theorem C7_north_equivalent_argument_check_witness :
    (∃ e : OomphLibError,
      QuadTreeRoot.north_equivalent
          ⟨fun _ => QuadTreeNames.N, fun _ => none⟩ QuadTreeNames.OMEGA =
        .error e ∧ e.currentFunction ≠ "" ∧ e.location ≠ "") ∧
    QuadTreeRoot.north_equivalent
        ⟨fun _ => QuadTreeNames.N, fun _ => none⟩ QuadTreeNames.N =
      .ok QuadTreeNames.N := by
  constructor
  · exact (C7_north_equivalent_argument_check
      ⟨fun _ => QuadTreeNames.N, fun _ => none⟩ QuadTreeNames.OMEGA).1
      (by refine ⟨?_, ?_, ?_, ?_⟩ <;> decide)
  · exact (C7_north_equivalent_argument_check
      ⟨fun _ => QuadTreeNames.N, fun _ => none⟩ QuadTreeNames.N).2
      (Or.inl rfl)

/-- **C8.** The default constructors of `QuadTree` and
`QuadTreeForest` always throw an `OomphLibError` carrying function and
location context, and never yield a usable object (quadtree.h lines
202-209 and 411-419). -/
theorem C8_empty_constructors_fatal :
    (∃ e : OomphLibError, QuadTree.empty_ctor = .error e ∧
      e.currentFunction ≠ "" ∧ e.location ≠ "") ∧
    (∃ e : OomphLibError, QuadTreeForest.empty_ctor = .error e ∧
      e.currentFunction ≠ "" ∧ e.location ≠ "") ∧
    (∀ u, QuadTree.empty_ctor ≠ .ok u) ∧
    (∀ u, QuadTreeForest.empty_ctor ≠ .ok u) := by
  refine ⟨⟨_, rfl, by decide, by decide⟩, ⟨_, rfl, by decide, by decide⟩,
    fun u h => ?_, fun u h => ?_⟩
  · simp [QuadTree.empty_ctor] at h
  · simp [QuadTreeForest.empty_ctor] at h

/-- **C10.** `QuadTreeRoot::direction_of_neighbour(p)` returns the
first direction in the fixed order N, E, S, W whose stored
neighbour-root pointer equals `p`, and `OMEGA` exactly when none of
the four pointers equals `p`; in particular a null argument on a root
with a null (boundary) neighbour pointer returns that boundary's
direction, and a periodic root that is its own neighbour in several
directions yields only the earliest direction in the N, E, S, W order
(quadtree.h lines 375-398). -/
theorem C10_direction_of_neighbour_spec (root : QuadTreeRootState)
    (p : Option Nat) :
    QuadTreeRoot.direction_of_neighbour root p =
      (([QuadTreeNames.N, QuadTreeNames.E, QuadTreeNames.S,
          QuadTreeNames.W].filter
          (fun d => root.Neighbour_pt d = p)).headD QuadTreeNames.OMEGA) ∧
    (QuadTreeRoot.direction_of_neighbour root p = QuadTreeNames.OMEGA ↔
      root.Neighbour_pt QuadTreeNames.N ≠ p ∧
      root.Neighbour_pt QuadTreeNames.E ≠ p ∧
      root.Neighbour_pt QuadTreeNames.S ≠ p ∧
      root.Neighbour_pt QuadTreeNames.W ≠ p) ∧
    ((∃ d, (d = QuadTreeNames.N ∨ d = QuadTreeNames.E ∨
        d = QuadTreeNames.S ∨ d = QuadTreeNames.W) ∧
        root.Neighbour_pt d = none) →
      QuadTreeRoot.direction_of_neighbour root none ≠ QuadTreeNames.OMEGA) := by
  refine ⟨?_, ?_, ?_⟩
  · unfold QuadTreeRoot.direction_of_neighbour
    split_ifs with h1 h2 h3 h4
    · simp [List.filter, h1]
    · simp [List.filter, h1, h2]
    · simp [List.filter, h1, h2, h3]
    · simp [List.filter, h1, h2, h3, h4]
    · simp [List.filter, h1, h2, h3, h4]
  · unfold QuadTreeRoot.direction_of_neighbour
    split_ifs with h1 h2 h3 h4
    · exact iff_of_false (by decide) (fun hr => hr.1 h1)
    · exact iff_of_false (by decide) (fun hr => hr.2.1 h2)
    · exact iff_of_false (by decide) (fun hr => hr.2.2.1 h3)
    · exact iff_of_false (by decide) (fun hr => hr.2.2.2 h4)
    · exact iff_of_true rfl ⟨h1, h2, h3, h4⟩
  · rintro ⟨d, hd, hnone⟩
    unfold QuadTreeRoot.direction_of_neighbour
    split_ifs with h1 h2 h3 h4
    · decide
    · decide
    · decide
    · decide
    · rcases hd with h | h | h | h <;> subst h <;> contradiction

/-- Witness for C10: on a periodic root that is its own neighbour in
every direction, the result is N (the earliest of the four); on a root
with a null eastern neighbour, querying the null pointer returns E,
not OMEGA. -/
theorem C10_direction_of_neighbour_spec_witness :
    QuadTreeRoot.direction_of_neighbour
        ⟨fun _ => QuadTreeNames.N, fun _ => some 7⟩ (some 7) =
      QuadTreeNames.N ∧
    QuadTreeRoot.direction_of_neighbour
        ⟨fun _ => QuadTreeNames.N,
          fun d => if d = QuadTreeNames.E then none else some 3⟩ none ≠
      QuadTreeNames.OMEGA := by
  constructor
  · exact (C10_direction_of_neighbour_spec
      ⟨fun _ => QuadTreeNames.N, fun _ => some 7⟩ (some 7)).1.trans (by rfl)
  · exact (C10_direction_of_neighbour_spec
      ⟨fun _ => QuadTreeNames.N,
        fun d => if d = QuadTreeNames.E then none else some 3⟩ none).2.2
      ⟨QuadTreeNames.E, Or.inr (Or.inl rfl), by decide⟩

/-- **C4.** For a `RefineablePolarCrouzeixRaviartElement` whose four
sons' central internal pressure values all equal the same number `p`,
`rebuild_from_sons` restores the piecewise-constant pre-split state:
the father's central pressure becomes `p` (0.25 times the sum of the
four sons' central values) and both slope degrees of freedom become 0
(refineable_polar_navier_stokes_elements.h lines 898-996). -/
theorem C4_rebuild_from_sons_piecewise_constant (son_p : Nat → ℚ) (p : ℚ)
    (h : ∀ ison < 4, son_p ison = p) :
    RefineablePolarCrouzeixRaviartElement.rebuild_from_sons son_p =
      { value0 := p, value1 := 0, value2 := 0 } := by
  have h0 := h 0 (by norm_num)
  have h1 := h 1 (by norm_num)
  have h2 := h 2 (by norm_num)
  have h3 := h 3 (by norm_num)
  rw [RefineablePolarCrouzeixRaviartElement.rebuild_from_sons]
  simp only [QuadTreeNames.SW, QuadTreeNames.SE, QuadTreeNames.NW,
    QuadTreeNames.NE, show List.range 4 = [0, 1, 2, 3] from rfl,
    List.foldl_cons, List.foldl_nil, h0, h1, h2, h3,
    PnstInternalData.mk.injEq]
  refine ⟨by ring, by ring, by ring⟩

/-- Witness for C4: four sons with central pressure 3 rebuild a father
with central pressure 3 and zero slopes. -/
theorem C4_rebuild_from_sons_piecewise_constant_witness :
    RefineablePolarCrouzeixRaviartElement.rebuild_from_sons
        (fun _ => (3 : ℚ)) =
      { value0 := 3, value1 := 0, value2 := 0 } :=
  C4_rebuild_from_sons_piecewise_constant (fun _ => (3 : ℚ)) 3
    (fun _ _ => rfl)

end Oomph
